import Mathlib

/-
Verification development for the OpenBR GUI plugin (openbr/plugins/gui.cpp).

The file embeds, as executable Lean definitions, the parts of gui.cpp that
the claims are about: the per-window input-collection state machines
(DisplayWindow, PointMarkingWindow, PromptWindow, DisplayGUI), the
interactive drivers (Show, Manual, Elicit, Survey), and the pacing
components (FPSLimit, FPSCalc).  Qt event delivery is modelled by folding
the per-cycle event stream over the event-filter logic; wall-clock time is
modelled by an explicit millisecond clock in which a sleep advances the
clock by exactly the requested amount and all other processing is
instantaneous.
-/

namespace OpenBRGui

/-- Opaque handle for a cv::Mat sub-image; the claims never inspect pixel
data, only how many sub-images a template carries. -/
abbrev Mat := Nat

/-- Model of QPointF; the claims treat coordinates opaquely, so integer
coordinates suffice. -/
structure QPointF where
  x : Int
  y : Int
deriving DecidableEq

/-- Metadata values stored in a frame: strings (Elicit, Survey), single
points (Manual), and the integer frame-rate value stamped by FPSCalc. -/
inductive FileValue where
  | str (s : String)
  | pt (p : QPointF)
  | fps (v : Nat)
deriving DecidableEq

/-- Modelled from the spec: the br::File class is not under src/ (only its
callers in gui.cpp are).  Per the spec data model, a Frame carries an
ordered key-to-value metadata record plus a point list; `name` is the
built-in identifier used by the Show title builder. -/
structure File where
  name : String
  metadata : List (String × FileValue)
  points : List QPointF
deriving DecidableEq

/-- Modelled from the spec: map update for the metadata record; replaces
the value of an existing key in place, otherwise appends the new entry. -/
def setKey : List (String × FileValue) → String → FileValue → List (String × FileValue)
  | [], k, v => [(k, v)]
  | (k0, v0) :: rest, k, v =>
    if k0 = k then (k, v) :: rest else (k0, v0) :: setKey rest k v

/-- Modelled from the spec: metadata lookup. -/
def getKey : List (String × FileValue) → String → Option FileValue
  | [], _ => none
  | (k0, v0) :: rest, k => if k0 = k then some v0 else getKey rest k

/-- Modelled from the spec: File::set stores a metadata value under a key. -/
def File.set (f : File) (k : String) (v : FileValue) : File :=
  { f with metadata := setKey f.metadata k v }

/-- Modelled from the spec: File::get retrieves a metadata value. -/
def File.get (f : File) (k : String) : Option FileValue :=
  getKey f.metadata k

/-- Modelled from the spec: File::contains tests for a metadata key. -/
def File.contains (f : File) (k : String) : Bool :=
  (f.get k).isSome

/-- Modelled from the spec: rendering a metadata value as a string for the
Show title; non-string values render empty. -/
def File.getString (f : File) (k : String) : String :=
  match f.get k with
  | some (FileValue.str s) => s
  | _ => ""

/-- Modelled from the spec: File::appendPoints appends the raw collected
point list to the frame as an unlabeled point set. -/
def File.appendPoints (f : File) (ps : List QPointF) : File :=
  { f with points := f.points ++ ps }

/-- A template is a frame: a file record plus its sub-images. -/
structure Template where
  file : File
  mats : List Mat
deriving DecidableEq

abbrev TemplateList := List Template

/-- Folds File.set over a list of key-value pairs, the shape of the
assignment loops in ManualTransform and ElicitTransform. -/
def setAll (f : File) (ps : List (String × FileValue)) : File :=
  ps.foldl (fun g kv => File.set g kv.1 kv.2) f

/- ---------------------------------------------------------------------
PromptWindow (gui.cpp lines 261-304).  The event filter lowercases the
keypress text for the comparison, accepts exactly "y"/"n" case
insensitively, stores the RAW key text and wakes the waiter; any other
key logs an advisory ("Please answer y/n") and leaves the wait pending.
--------------------------------------------------------------------- -/

/-- Model of QString::toLower, characterwise over the text (the key
texts involved are ASCII). -/
def qtToLower (s : String) : String :=
  String.mk (s.data.map Char.toLower)

/-- Acceptance test of PromptWindow::eventFilter: the text is lowercased
and compared against "y" and "n". -/
def promptAccepts (t : String) : Bool :=
  qtToLower t == "y" || qtToLower t == "n"

/-- Runs the prompt event filter over the key texts arriving during one
wait.  Returns the stored string at the wake, if any (none models a wait
that never completes), together with the number of advisory log messages
emitted for rejected keys before the wake.  Note the source stores
key_event->text(), the raw text, not the lowercased copy. -/
def promptRun : List String → Option String × Nat
  | [] => (none, 0)
  | t :: ts =>
    if promptAccepts t then (some t, 0)
    else
      let r := promptRun ts
      (r.1, r.2 + 1)

/- ---------------------------------------------------------------------
PointMarkingWindow (gui.cpp lines 219-259).  Left press appends the
cursor point, right press removes the last point unless the list is
empty, any key press completes the cycle.  waitForKey clears the point
list first, so earlier cycles never contribute.
--------------------------------------------------------------------- -/

inductive MouseEvent where
  | left (p : QPointF)
  | right
deriving DecidableEq

/-- One step of PointMarkingWindow::eventFilter on a mouse press. -/
def pointStep (pts : List QPointF) : MouseEvent → List QPointF
  | MouseEvent.left p => pts ++ [p]
  | MouseEvent.right => if pts.isEmpty then pts else pts.dropLast

/-- The points accumulated over one wait cycle, starting from the cleared
list (points.clear() at the start of waitForKey). -/
def pointCycle (evs : List MouseEvent) : List QPointF :=
  evs.foldl pointStep []

/-- PointMarkingWindow::waitForKey: given the point list left over from
before the cycle, clear it, process the events of the cycle, return the
accumulated points (which also remain as the window state). -/
def pmWaitForKey (prev : List QPointF) (evs : List MouseEvent) : List QPointF :=
  let _ := prev
  let cleared : List QPointF := []
  evs.foldl pointStep cleared

/-- Instrumented cycle run that also counts the secondary presses that
actually removed a point (the applied removals). -/
def cycleRun : List QPointF → Nat → List MouseEvent → List QPointF × Nat
  | pts, r, [] => (pts, r)
  | pts, r, MouseEvent.left p :: evs => cycleRun (pts ++ [p]) r evs
  | pts, r, MouseEvent.right :: evs =>
    if pts.isEmpty then cycleRun pts r evs else cycleRun pts.dropLast (r + 1) evs

/-- Number of primary-button presses in an event stream. -/
def countLeft : List MouseEvent → Nat
  | [] => 0
  | MouseEvent.left _ :: evs => countLeft evs + 1
  | MouseEvent.right :: evs => countLeft evs

/- ---------------------------------------------------------------------
DisplayGUI, the form window (gui.cpp lines 306-384).  showImage appends
one QLineEdit per configured key to `fields` on EVERY call and nothing
ever clears `fields`; waitForButtonPress returns the text of every field
accumulated so far, in creation order.
--------------------------------------------------------------------- -/

/-- One text-entry row of the form: the key label it was created for and
its current text (a fresh QLineEdit starts empty). -/
structure GuiField where
  label : String
  text : String
deriving DecidableEq

structure DisplayGUIState where
  keys : List String
  fields : List GuiField
deriving DecidableEq

/-- DisplayGUI::showImage: appends one fresh, empty field per configured
key; the existing fields are kept (the source never clears them). -/
def guiShowImage (st : DisplayGUIState) : DisplayGUIState :=
  { st with fields := st.fields ++ st.keys.map (fun k => { label := k, text := "" }) }

/-- A user edit: typing the string into field number i (leaves the state
unchanged when no such field exists). -/
def editField : List GuiField → Nat → String → List GuiField
  | [], _, _ => []
  | f :: fs, 0, s => { f with text := s } :: fs
  | f :: fs, Nat.succ n, s => f :: editField fs n s

def applyEdits (fs : List GuiField) (es : List (Nat × String)) : List GuiField :=
  es.foldl (fun gs e => editField gs e.1 e.2) fs

/-- DisplayGUI::waitForButtonPress: after the submit button wakes the
waiter, returns the text of every field, in creation order. -/
def guiWaitForButtonPress (st : DisplayGUIState) : List String :=
  st.fields.map GuiField.text

/-- One display-and-wait cycle of the form window: showImage, then the
edits the user types during the wait, then the button press returning the
field texts. -/
def guiCycle (st : DisplayGUIState) (edits : List (Nat × String)) :
    DisplayGUIState × List String :=
  let st1 := guiShowImage st
  let st2 := { st1 with fields := applyEdits st1.fields edits }
  (st2, guiWaitForButtonPress st2)

/- ---------------------------------------------------------------------
Merge steps of the drivers.
--------------------------------------------------------------------- -/

/-- ManualTransform::projectUpdate merge (gui.cpp lines 528-536): with no
configured keys, append the collected points as an unlabeled point set;
with keys, if the counts match assign keys[j] := points[j] for every j,
otherwise log a warning (the Bool) and leave the file untouched. -/
def manualMerge (keys : List String) (pts : List QPointF) (f : File) : File × Bool :=
  if keys.isEmpty then (f.appendPoints pts, false)
  else if keys.length = pts.length then
    (setAll f (List.zipWith (fun k p => (k, FileValue.pt p)) keys pts), false)
  else (f, true)

/-- ElicitTransform::projectUpdate merge (gui.cpp line 595): the loop
`for j in [0, keys.size()) : set(keys[j], metadata[j])` with no count
check; accessing metadata[j] past the end of the returned field list is
out of bounds (modelled as the error value). -/
def elicitMergeGo : File → List String → List String → Except String File
  | f, [], _ => Except.ok f
  | _, _ :: _, [] => Except.error "index out of range"
  | f, k :: ks, v :: vs => elicitMergeGo (File.set f k (FileValue.str v)) ks vs

def elicitMerge (keys vals : List String) (f : File) : Except String File :=
  elicitMergeGo f keys vals

/- ---------------------------------------------------------------------
Interactive drivers.  A driver state records the ambient globals it reads
(Globals->useGui, Globals->parallelism), its properties, and whether init
allocated its display buffer and window (both stay null in headless mode,
since initActual returns before allocating anything).  projectUpdate is
modelled as a function from the state, the source batch and the user
events consumed at each blocking wait to an Outcome: the produced batch
plus the trace of window, buffer and wait touches; or a crash (a null
dereference or an out-of-bounds access in the source); or a fatal abort
(qFatal) which kills the run before anything is processed.
--------------------------------------------------------------------- -/

inductive Effect where
  | bufferWrite
  | windowImage
  | windowTitle (s : String)
  | waitKey
  | waitButton
  | waitPrompt
deriving DecidableEq

inductive Outcome where
  | ok (dst : TemplateList) (effects : List Effect)
  | crash (msg : String) (effects : List Effect)
  | fatal (msg : String)
deriving DecidableEq

structure DrvState where
  useGui : Bool
  parallelism : Nat
  waitInput : Bool
  keys : List String
  hasBuffer : Bool
  hasWindow : Bool
deriving DecidableEq

/-- ShowTransform::initActual (gui.cpp lines 466-484): returns at once
when the GUI flag is off, otherwise allocates the display buffer and has
the main thread build the window, connecting the signals. -/
def showInitActual (st : DrvState) : DrvState :=
  if st.useGui = false then st
  else { st with hasBuffer := true, hasWindow := true }

/-- ShowTransform title builder (gui.cpp lines 425-436): the key literal
"name" (case insensitive) renders the built-in identifier, any other key
renders its metadata value when present. -/
def buildTitle (keys : List String) (f : File) : String :=
  keys.foldl (fun acc s =>
    if qtToLower s == "name" then acc ++ s ++ ": " ++ f.name ++ " "
    else if f.contains s then acc ++ s ++ ": " ++ f.getString s ++ " "
    else acc) ""

/-- ShowTransform inner loop over the sub-images of one template
(gui.cpp lines 438-451): write the display buffer (a null dereference if
init never allocated it), emit the pixmap to the window when one is
connected, and block for a key press when waitInput is set.  Returns the
effect trace and an optional crash message. -/
def showMats (st : DrvState) : List Mat → List Effect × Option String
  | [] => ([], none)
  | _ :: ms =>
    if st.hasBuffer then
      let es1 := Effect.bufferWrite ::
        (if st.hasWindow then [Effect.windowImage] else [])
      if st.waitInput then
        if st.hasWindow then
          let r := showMats st ms
          (es1 ++ Effect.waitKey :: r.1, r.2)
        else (es1, some "null window dereference")
      else
        let r := showMats st ms
        (es1 ++ r.1, r.2)
    else ([], some "null displayBuffer dereference")

/-- ShowTransform loop over the batch (gui.cpp lines 423-452): per
template, emit the rebuilt title (delivered only when a window is
connected), then process its sub-images. -/
def showTemplates (st : DrvState) : TemplateList → List Effect × Option String
  | [] => ([], none)
  | t :: ts =>
    let es0 := if st.hasWindow then [Effect.windowTitle (buildTitle st.keys t.file)] else []
    let r1 := showMats st t.mats
    match r1.2 with
    | some m => (es0 ++ r1.1, some m)
    | none =>
      let r2 := showTemplates st ts
      (es0 ++ r1.1 ++ r2.1, r2.2)

/-- ShowTransform::projectUpdate (gui.cpp lines 416-453): dst = src, early
return on an empty batch, otherwise the template loop. -/
def showProjectUpdate (st : DrvState) (src : TemplateList) : Outcome :=
  if src = [] then Outcome.ok src []
  else
    match showTemplates st src with
    | (es, none) => Outcome.ok src es
    | (es, some m) => Outcome.crash m es

/-- ManualTransform inner loop over the sub-images of one template
(gui.cpp lines 521-537): buffer write, pixmap emit, then when waitInput
is set a blocking waitForKey on the point-marking window (one event list
consumed from the oracle per wait) followed by the merge into the file. -/
def manualMats (st : DrvState) (oracle : List (List MouseEvent)) (f : File) :
    List Mat → List Effect × List (List MouseEvent) × File × Option String
  | [] => ([], oracle, f, none)
  | _ :: ms =>
    if st.hasBuffer then
      let es1 := Effect.bufferWrite ::
        (if st.hasWindow then [Effect.windowImage] else [])
      if st.waitInput then
        if st.hasWindow then
          let pts := pointCycle (oracle.headD [])
          let f1 := (manualMerge st.keys pts f).1
          let r := manualMats st oracle.tail f1 ms
          (es1 ++ Effect.waitKey :: r.1, r.2.1, r.2.2.1, r.2.2.2)
        else (es1, oracle, f, some "null window dereference")
      else
        let r := manualMats st oracle f ms
        (es1 ++ r.1, r.2.1, r.2.2.1, r.2.2.2)
    else ([], oracle, f, some "null displayBuffer dereference")

/-- ManualTransform loop over the batch (gui.cpp lines 520-538). -/
def manualTemplates (st : DrvState) (oracle : List (List MouseEvent)) :
    TemplateList → List Effect × TemplateList × Option String
  | [] => ([], [], none)
  | t :: ts =>
    let r1 := manualMats st oracle t.file t.mats
    match r1.2.2.2 with
    | some m => (r1.1, { t with file := r1.2.2.1 } :: ts, some m)
    | none =>
      let r2 := manualTemplates st r1.2.1 ts
      (r1.1 ++ r2.1, { t with file := r1.2.2.1 } :: r2.2.1, r2.2.2)

/-- ManualTransform::projectUpdate (gui.cpp lines 510-539): a fatal abort
when the configured parallelism exceeds 1, before any frame is touched;
then dst = src, early return on empty, then the batch loop. -/
def manualProjectUpdate (st : DrvState) (oracle : List (List MouseEvent))
    (src : TemplateList) : Outcome :=
  if st.parallelism > 1 then Outcome.fatal "ManualTransform cannot execute in parallel."
  else if src = [] then Outcome.ok src []
  else
    match manualTemplates st oracle src with
    | (es, dst, none) => Outcome.ok dst es
    | (es, _, some m) => Outcome.crash m es

/-- SurveyTransform inner loop (gui.cpp lines 670-682): buffer write,
pixmap emit, then when waitInput is set a blocking waitForKeyPress on the
prompt window; the answer is stored under the configured property name.
A wait whose event stream contains no accepted key never completes. -/
def surveyMats (st : DrvState) (propertyName : String) (oracle : List (List String))
    (f : File) : List Mat → List Effect × List (List String) × File × Option String
  | [] => ([], oracle, f, none)
  | _ :: ms =>
    if st.hasBuffer then
      let es1 := Effect.bufferWrite ::
        (if st.hasWindow then [Effect.windowImage] else [])
      if st.waitInput then
        if st.hasWindow then
          match (promptRun (oracle.headD [])).1 with
          | some ans =>
            let f1 := File.set f propertyName (FileValue.str ans)
            let r := surveyMats st propertyName oracle.tail f1 ms
            (es1 ++ Effect.waitPrompt :: r.1, r.2.1, r.2.2.1, r.2.2.2)
          | none => (es1 ++ [Effect.waitPrompt], oracle.tail, f, some "unbounded blocking wait")
        else (es1, oracle, f, some "null prompt window dereference")
      else
        let r := surveyMats st propertyName oracle f ms
        (es1 ++ r.1, r.2.1, r.2.2.1, r.2.2.2)
    else ([], oracle, f, some "null displayBuffer dereference")

/-- SurveyTransform loop over the batch (gui.cpp lines 669-683). -/
def surveyTemplates (st : DrvState) (propertyName : String) (oracle : List (List String)) :
    TemplateList → List Effect × TemplateList × Option String
  | [] => ([], [], none)
  | t :: ts =>
    let r1 := surveyMats st propertyName oracle t.file t.mats
    match r1.2.2.2 with
    | some m => (r1.1, { t with file := r1.2.2.1 } :: ts, some m)
    | none =>
      let r2 := surveyTemplates st propertyName r1.2.1 ts
      (r1.1 ++ r2.1, { t with file := r1.2.2.1 } :: r2.2.1, r2.2.2)

/-- SurveyTransform::projectUpdate (gui.cpp lines 659-684): the same
fatal parallelism guard as Manual, then dst = src, early return on empty,
then the batch loop. -/
def surveyProjectUpdate (st : DrvState) (propertyName : String)
    (oracle : List (List String)) (src : TemplateList) : Outcome :=
  if st.parallelism > 1 then Outcome.fatal "SurveyTransform cannot execute in parallel."
  else if src = [] then Outcome.ok src []
  else
    match surveyTemplates st propertyName oracle src with
    | (es, dst, none) => Outcome.ok dst es
    | (es, _, some m) => Outcome.crash m es

/-- ElicitTransform::initActual (gui.cpp lines 611-632): returns at once
when the GUI flag is off; otherwise allocates the buffer, builds a fresh
form window (empty field list) and hands it the configured keys. -/
def elicitInitActual (st : DrvState) (gst : DisplayGUIState) :
    DrvState × DisplayGUIState :=
  if st.useGui = false then (st, gst)
  else ({ st with hasBuffer := true, hasWindow := true },
        { keys := st.keys, fields := [] })

/-- ElicitTransform inner loop (gui.cpp lines 588-596): buffer write,
pixmap emit delivered to the form window (which appends a fresh block of
fields), the user edits of this cycle, the blocking waitForButtonPress
returning every field text, then the unchecked positional merge. -/
def elicitMats (st : DrvState) (gst : DisplayGUIState)
    (oracle : List (List (Nat × String))) (f : File) :
    List Mat → List Effect × DisplayGUIState × List (List (Nat × String)) × File × Option String
  | [] => ([], gst, oracle, f, none)
  | _ :: ms =>
    if st.hasBuffer then
      if st.hasWindow then
        let c := guiCycle gst (oracle.headD [])
        match elicitMerge st.keys c.2 f with
        | Except.ok f1 =>
          let r := elicitMats st c.1 oracle.tail f1 ms
          (Effect.bufferWrite :: Effect.windowImage :: Effect.waitButton :: r.1,
           r.2.1, r.2.2.1, r.2.2.2.1, r.2.2.2.2)
        | Except.error m =>
          ([Effect.bufferWrite, Effect.windowImage, Effect.waitButton],
           c.1, oracle.tail, f, some m)
      else ([Effect.bufferWrite], gst, oracle, f, some "null gui dereference")
    else ([], gst, oracle, f, some "null displayBuffer dereference")

/-- ElicitTransform loop over the batch (gui.cpp lines 587-597). -/
def elicitTemplates (st : DrvState) (gst : DisplayGUIState)
    (oracle : List (List (Nat × String))) :
    TemplateList → List Effect × DisplayGUIState × TemplateList × Option String
  | [] => ([], gst, [], none)
  | t :: ts =>
    let r1 := elicitMats st gst oracle t.file t.mats
    match r1.2.2.2.2 with
    | some m => (r1.1, r1.2.1, { t with file := r1.2.2.2.1 } :: ts, some m)
    | none =>
      let r2 := elicitTemplates st r1.2.1 r1.2.2.1 ts
      (r1.1 ++ r2.1, r2.2.1, { t with file := r1.2.2.2.1 } :: r2.2.2.1, r2.2.2.2)

/-- ElicitTransform::projectUpdate (gui.cpp lines 581-598): dst = src,
early return on empty, then the batch loop; note there is no parallelism
guard here.  Also returns the final form-window state. -/
def elicitProjectUpdate (st : DrvState) (gst : DisplayGUIState)
    (oracle : List (List (Nat × String))) (src : TemplateList) :
    Outcome × DisplayGUIState :=
  if src = [] then (Outcome.ok src [], gst)
  else
    match elicitTemplates st gst oracle src with
    | (es, g2, dst, none) => (Outcome.ok dst es, g2)
    | (es, g2, _, some m) => (Outcome.crash m es, g2)

/-- True when some template of the batch carries at least one sub-image
(only then do the per-mat display loops run at all). -/
def hasAnyMat (l : TemplateList) : Bool :=
  l.any (fun t => !t.mats.isEmpty)

/- ---------------------------------------------------------------------
FPSLimit (gui.cpp lines 708-756).  Time is an idealized millisecond clock:
timer.elapsed() reads the clock, QThread::msleep(w) advances it by exactly
w, and everything else is instantaneous.
--------------------------------------------------------------------- -/

/-- FPSLimit::init target interval (gui.cpp line 746): the double quotient
1000.0 / targetFPS is truncated on assignment to the integer target_wait;
for positive integer rates that is the floor, i.e. Nat division. -/
def limitTargetWait (targetFPS : Nat) : Nat :=
  1000 / targetFPS

structure LimitState where
  clock : Nat
  last : Nat
deriving DecidableEq

/-- FPSLimit::projectUpdate (gui.cpp lines 722-737): read the clock,
target = last_time + target_wait; set last_time to the current reading;
if the target is already past, return; otherwise sleep the shortfall and
record the post-sleep reading as last_time. -/
def fpslimitStep (tw : Nat) (s : LimitState) : LimitState :=
  let c := s.clock
  let target := s.last + tw
  if target < c then { clock := c, last := c }
  else { clock := target, last := target }

/-- N consecutive invocations with instantaneous upstream processing. -/
def limitRun (tw : Nat) : Nat → LimitState → LimitState
  | 0, s => s
  | Nat.succ n, s => limitRun tw n (fpslimitStep tw s)

/-- FPSLimit::init (gui.cpp lines 744-749): the timer starts and
last_time is the fresh reading, both at clock 0. -/
def limitInitState : LimitState :=
  { clock := 0, last := 0 }

/- ---------------------------------------------------------------------
FPSCalc (gui.cpp lines 764-814).  elapsed is the millisecond reading of
the timer started on the first invocation.
--------------------------------------------------------------------- -/

structure CalcState where
  initialized : Bool
  framesSeen : Nat
deriving DecidableEq

/-- Stamps the computed average onto the first frame of the batch
(gui.cpp line 795). -/
def stampFirst (l : TemplateList) (v : Nat) : TemplateList :=
  match l with
  | [] => []
  | t :: ts => { t with file := File.set t.file "AvgFPS" (FileValue.fps v) } :: ts

/-- FPSCalc::projectUpdate (gui.cpp lines 779-797): start the timer on
the first invocation, increment framesSeen by one, return on an empty
batch, and when strictly more than 1000 ms have elapsed stamp
1000 * framesSeen / elapsed (integer division of the qint64 operands,
then widened to double) onto the first frame under "AvgFPS". -/
def fpscalcProjectUpdate (st : CalcState) (elapsed : Nat) (src : TemplateList) :
    CalcState × TemplateList :=
  let st1 : CalcState := { initialized := true, framesSeen := st.framesSeen + 1 }
  if src = [] then (st1, src)
  else if 1000 < elapsed then
    (st1, stampFirst src (1000 * st1.framesSeen / elapsed))
  else (st1, src)

/- ---------------------------------------------------------------------
Concrete instances used by counterexamples and witnesses.
--------------------------------------------------------------------- -/

/-- An empty frame record. -/
def file0 : File := { name := "frame", metadata := [], points := [] }

/-- A one-frame batch whose frame carries one sub-image. -/
def demoBatch : TemplateList := [{ file := file0, mats := [0] }]

/-- A two-frame batch, each frame with one sub-image. -/
def twoFrameBatch : TemplateList :=
  [{ file := file0, mats := [0] }, { file := file0, mats := [1] }]

/-- The driver state after construction and init with the GUI flag off:
initActual returns immediately, so the window and buffer stay null. -/
def headlessDemoState : DrvState :=
  showInitActual
    { useGui := false, parallelism := 1, waitInput := true, keys := [],
      hasBuffer := false, hasWindow := false }

/-- The driver state as constructed under a disabled GUI flag: the
ambient globals, the configured properties, and null window and buffer
(nothing allocates them before init runs). -/
def headlessState (p : Nat) (wi : Bool) (keys : List String) : DrvState :=
  { useGui := false, parallelism := p, waitInput := wi, keys := keys,
    hasBuffer := false, hasWindow := false }

/-- A fully initialized driver state under configured parallelism 2. -/
def parDemoState : DrvState :=
  { useGui := true, parallelism := 2, waitInput := true, keys := [],
    hasBuffer := true, hasWindow := true }

/- ---------------------------------------------------------------------
Helper lemmas about the metadata record.
--------------------------------------------------------------------- -/

theorem getKey_setKey_self (m : List (String × FileValue)) (k : String) (v : FileValue) :
    getKey (setKey m k v) k = some v := by
  induction m with
  | nil => simp [setKey, getKey]
  | cons h t ih =>
    obtain ⟨k0, v0⟩ := h
    by_cases hk : k0 = k
    · simp [setKey, hk, getKey]
    · simp [setKey, hk, getKey, ih]

theorem getKey_setKey_ne (m : List (String × FileValue)) (k k2 : String) (v : FileValue)
    (hne : k2 ≠ k) : getKey (setKey m k v) k2 = getKey m k2 := by
  induction m with
  | nil => simp [setKey, getKey, hne, Ne.symm hne]
  | cons h t ih =>
    obtain ⟨k0, v0⟩ := h
    by_cases hk : k0 = k
    · subst hk
      simp [setKey, getKey, hne, Ne.symm hne]
    · by_cases hk2 : k0 = k2
      · subst hk2
        simp [setKey, hk, getKey]
      · simp [setKey, hk, getKey, hk2, ih]

theorem File.get_set_self (f : File) (k : String) (v : FileValue) :
    (f.set k v).get k = some v :=
  getKey_setKey_self f.metadata k v

theorem File.get_set_ne (f : File) (k k2 : String) (v : FileValue) (hne : k2 ≠ k) :
    (f.set k v).get k2 = f.get k2 :=
  getKey_setKey_ne f.metadata k k2 v hne

theorem get_setAll_not_mem (ps : List (String × FileValue)) :
    ∀ (f : File) (k : String), k ∉ ps.map Prod.fst → (setAll f ps).get k = f.get k := by
  induction ps with
  | nil => intro f k _; rfl
  | cons p ps ih =>
    intro f k hk
    simp only [List.map_cons, List.mem_cons] at hk
    push_neg at hk
    have h1 : (setAll f (p :: ps)) = setAll (f.set p.1 p.2) ps := rfl
    rw [h1, ih (f.set p.1 p.2) k hk.2, File.get_set_ne f p.1 k p.2 hk.1]

theorem get_setAll_nodup (ps : List (String × FileValue)) :
    ∀ (f : File), (ps.map Prod.fst).Nodup →
    ∀ (i : Nat) (hi : i < ps.length),
      (setAll f ps).get (ps.get ⟨i, hi⟩).1 = some (ps.get ⟨i, hi⟩).2 := by
  induction ps with
  | nil => intro f _ i hi; exact absurd hi (Nat.not_lt_zero i)
  | cons p ps ih =>
    intro f hnd i hi
    simp only [List.map_cons, List.nodup_cons] at hnd
    have h1 : (setAll f (p :: ps)) = setAll (f.set p.1 p.2) ps := rfl
    match i with
    | 0 =>
      have h2 : ((p :: ps).get ⟨0, hi⟩) = p := rfl
      rw [h1, h2, get_setAll_not_mem ps (f.set p.1 p.2) p.1 hnd.1,
        File.get_set_self]
    | Nat.succ j =>
      have hj : j < ps.length := Nat.lt_of_succ_lt_succ hi
      have h2 : ((p :: ps).get ⟨Nat.succ j, hi⟩) = ps.get ⟨j, hj⟩ := rfl
      rw [h1, h2]
      exact ih (f.set p.1 p.2) hnd.2 j hj

theorem map_fst_zipWith_pair {α : Type} (g : α → FileValue) :
    ∀ (keys : List String) (vals : List α), keys.length ≤ vals.length →
    (List.zipWith (fun k v => (k, g v)) keys vals).map Prod.fst = keys := by
  intro keys
  induction keys with
  | nil => intro vals _; simp
  | cons k ks ih =>
    intro vals hle
    match vals with
    | [] => exact absurd hle (by simp)
    | v :: vs =>
      simp only [List.zipWith_cons_cons, List.map_cons, List.cons.injEq, true_and]
      exact ih vs (Nat.le_of_succ_le_succ hle)

theorem get_zipWith_pair {α : Type} (g : α → FileValue) :
    ∀ (keys : List String) (vals : List α) (i : Nat)
      (h : i < (List.zipWith (fun k v => (k, g v)) keys vals).length)
      (hk : i < keys.length) (hv : i < vals.length),
      (List.zipWith (fun k v => (k, g v)) keys vals).get ⟨i, h⟩ =
        (keys.get ⟨i, hk⟩, g (vals.get ⟨i, hv⟩)) := by
  intro keys
  induction keys with
  | nil => intro vals i h hk _; exact absurd hk (Nat.not_lt_zero i)
  | cons k ks ih =>
    intro vals i h hk hv
    match vals with
    | [] => exact absurd hv (Nat.not_lt_zero i)
    | v :: vs =>
      match i with
      | 0 => rfl
      | Nat.succ j =>
        have hj : j < (List.zipWith (fun k v => (k, g v)) ks vs).length := by
          simp only [List.zipWith_cons_cons, List.length_cons] at h
          exact Nat.lt_of_succ_lt_succ h
        have := ih vs j hj (Nat.lt_of_succ_lt_succ hk) (Nat.lt_of_succ_lt_succ hv)
        exact this

/- ---------------------------------------------------------------------
Helper lemmas about the window state machines.
--------------------------------------------------------------------- -/

theorem promptRun_sound : ∀ evs : List String,
    (∀ t, (promptRun evs).1 = some t → promptAccepts t = true) ∧
    ((promptRun evs).1 = none → (promptRun evs).2 = evs.length) := by
  intro evs
  induction evs with
  | nil => exact ⟨fun t h => by simp [promptRun] at h, fun _ => rfl⟩
  | cons e es ih =>
    by_cases he : promptAccepts e = true
    · refine ⟨fun t h => ?_, fun h => ?_⟩
      · simp [promptRun, he] at h
        exact h ▸ he
      · simp [promptRun, he] at h
    · refine ⟨fun t h => ?_, fun h => ?_⟩
      · simp only [promptRun, he, if_false] at h
        exact ih.1 t h
      · simp only [promptRun, he, if_false] at h ⊢
        simp [ih.2 h]

theorem cycleRun_fst : ∀ (evs : List MouseEvent) (pts : List QPointF) (r : Nat),
    (cycleRun pts r evs).1 = evs.foldl pointStep pts := by
  intro evs
  induction evs with
  | nil => intro pts r; rfl
  | cons e es ih =>
    intro pts r
    match e with
    | MouseEvent.left p => simpa [cycleRun, List.foldl, pointStep] using ih (pts ++ [p]) r
    | MouseEvent.right =>
      by_cases hp : pts.isEmpty
      · simp [cycleRun, hp, List.foldl, pointStep, ih]
      · simp [cycleRun, hp, List.foldl, pointStep, ih]

theorem cycleRun_len : ∀ (evs : List MouseEvent) (pts : List QPointF) (r : Nat),
    (cycleRun pts r evs).1.length + (cycleRun pts r evs).2 =
      pts.length + r + countLeft evs := by
  intro evs
  induction evs with
  | nil => intro pts r; simp [cycleRun, countLeft]
  | cons e es ih =>
    intro pts r
    match e with
    | MouseEvent.left p =>
      have hstep : cycleRun pts r (MouseEvent.left p :: es) = cycleRun (pts ++ [p]) r es := rfl
      have := ih (pts ++ [p]) r
      rw [hstep]
      simp only [countLeft, List.length_append, List.length_cons, List.length_nil] at this ⊢
      omega
    | MouseEvent.right =>
      match pts with
      | [] =>
        have hstep : cycleRun [] r (MouseEvent.right :: es) = cycleRun [] r es := rfl
        have := ih [] r
        rw [hstep]
        simp only [countLeft, List.length_nil] at this ⊢
        omega
      | q :: qs =>
        have hstep : cycleRun (q :: qs) r (MouseEvent.right :: es) =
            cycleRun (q :: qs).dropLast (r + 1) es := rfl
        have := ih (q :: qs).dropLast (r + 1)
        rw [hstep]
        have hl : (q :: qs).dropLast.length = qs.length := by
          simp [List.length_dropLast]
        rw [hl] at this
        simp only [countLeft, List.length_cons] at this ⊢
        omega

theorem editField_length : ∀ (fs : List GuiField) (i : Nat) (s : String),
    (editField fs i s).length = fs.length := by
  intro fs
  induction fs with
  | nil => intro i s; rfl
  | cons f fs ih =>
    intro i s
    match i with
    | 0 => rfl
    | Nat.succ j => simp [editField, ih]

theorem editField_labels : ∀ (fs : List GuiField) (i : Nat) (s : String),
    (editField fs i s).map GuiField.label = fs.map GuiField.label := by
  intro fs
  induction fs with
  | nil => intro i s; rfl
  | cons f fs ih =>
    intro i s
    match i with
    | 0 => rfl
    | Nat.succ j => simp [editField, ih]

theorem applyEdits_length : ∀ (es : List (Nat × String)) (fs : List GuiField),
    (applyEdits fs es).length = fs.length := by
  intro es
  induction es with
  | nil => intro fs; rfl
  | cons e es ih =>
    intro fs
    have h1 : applyEdits fs (e :: es) = applyEdits (editField fs e.1 e.2) es := rfl
    rw [h1, ih, editField_length]

theorem applyEdits_labels : ∀ (es : List (Nat × String)) (fs : List GuiField),
    (applyEdits fs es).map GuiField.label = fs.map GuiField.label := by
  intro es
  induction es with
  | nil => intro fs; rfl
  | cons e es ih =>
    intro fs
    have h1 : applyEdits fs (e :: es) = applyEdits (editField fs e.1 e.2) es := rfl
    rw [h1, ih, editField_labels]

theorem guiShowImage_labels (st : DisplayGUIState) :
    (guiShowImage st).fields.map GuiField.label = st.fields.map GuiField.label ++ st.keys := by
  simp only [guiShowImage, List.map_append, List.map_map]
  congr 1
  exact List.map_id st.keys

theorem guiShowImage_length (st : DisplayGUIState) :
    (guiShowImage st).fields.length = st.fields.length + st.keys.length := by
  simp [guiShowImage]

/- ---------------------------------------------------------------------
Helper lemmas about the Elicit merge loop.
--------------------------------------------------------------------- -/

theorem elicitMergeGo_ok : ∀ (keys vals : List String) (f : File),
    keys.length ≤ vals.length →
    elicitMergeGo f keys vals =
      Except.ok (setAll f (List.zipWith (fun k v => (k, FileValue.str v)) keys vals)) := by
  intro keys
  induction keys with
  | nil => intro vals f _; rfl
  | cons k ks ih =>
    intro vals f hle
    match vals with
    | [] => exact absurd hle (by simp)
    | v :: vs =>
      have h1 : elicitMergeGo f (k :: ks) (v :: vs) =
          elicitMergeGo (File.set f k (FileValue.str v)) ks vs := rfl
      have h2 : setAll f (List.zipWith (fun k v => (k, FileValue.str v)) (k :: ks) (v :: vs)) =
          setAll (File.set f k (FileValue.str v))
            (List.zipWith (fun k v => (k, FileValue.str v)) ks vs) := rfl
      rw [h1, h2]
      exact ih vs (File.set f k (FileValue.str v)) (Nat.le_of_succ_le_succ hle)

theorem elicitMergeGo_oob : ∀ (keys vals : List String) (f : File),
    vals.length < keys.length →
    elicitMergeGo f keys vals = Except.error "index out of range" := by
  intro keys
  induction keys with
  | nil => intro vals f h; exact absurd h (by simp)
  | cons k ks ih =>
    intro vals f h
    match vals with
    | [] => rfl
    | v :: vs =>
      have h1 : elicitMergeGo f (k :: ks) (v :: vs) =
          elicitMergeGo (File.set f k (FileValue.str v)) ks vs := rfl
      rw [h1]
      exact ih vs (File.set f k (FileValue.str v)) (Nat.lt_of_succ_lt_succ h)

/- ---------------------------------------------------------------------
Helper lemmas: headless runs of the four drivers.  In each, the state has
no display buffer and no window, so the first sub-image of the batch hits
the null display buffer, and no window, buffer or wait effect is ever
recorded.
--------------------------------------------------------------------- -/

theorem showMats_headless (st : DrvState) (hb : st.hasBuffer = false) :
    ∀ ms : List Mat, showMats st ms =
      ([], if ms.isEmpty then none else some "null displayBuffer dereference") := by
  intro ms
  match ms with
  | [] => rfl
  | _ :: _ => simp [showMats, hb]

theorem showTemplates_headless (st : DrvState) (hb : st.hasBuffer = false)
    (hw : st.hasWindow = false) :
    ∀ ts : TemplateList, showTemplates st ts =
      ([], if hasAnyMat ts then some "null displayBuffer dereference" else none) := by
  intro ts
  induction ts with
  | nil => rfl
  | cons t ts ih =>
    match hm : t.mats with
    | [] =>
      simp only [showTemplates, hw, if_false, showMats_headless st hb, hm,
        List.isEmpty_nil, if_true, ih, hasAnyMat, List.any_cons, hm,
        List.isEmpty_nil, Bool.not_true, Bool.false_or]
      rfl
    | m :: ms =>
      simp only [showTemplates, hw, if_false, showMats_headless st hb, hm,
        List.isEmpty_cons, if_false, hasAnyMat, List.any_cons, hm,
        List.isEmpty_cons, Bool.not_false, Bool.true_or, if_true]
      rfl

theorem showProjectUpdate_headless (st : DrvState) (hb : st.hasBuffer = false)
    (hw : st.hasWindow = false) (src : TemplateList) :
    showProjectUpdate st src =
      (if hasAnyMat src then Outcome.crash "null displayBuffer dereference" []
       else Outcome.ok src []) := by
  match src with
  | [] => rfl
  | t :: ts =>
    simp only [showProjectUpdate, showTemplates_headless st hb hw]
    by_cases h : hasAnyMat (t :: ts) <;> simp [h]

theorem manualMats_headless (st : DrvState) (hb : st.hasBuffer = false)
    (oracle : List (List MouseEvent)) (f : File) :
    ∀ ms : List Mat, manualMats st oracle f ms =
      ([], oracle, f, if ms.isEmpty then none else some "null displayBuffer dereference") := by
  intro ms
  match ms with
  | [] => rfl
  | _ :: _ => simp [manualMats, hb]

theorem manualTemplates_headless (st : DrvState) (hb : st.hasBuffer = false) :
    ∀ (ts : TemplateList) (oracle : List (List MouseEvent)),
      manualTemplates st oracle ts =
      ([], ts, if hasAnyMat ts then some "null displayBuffer dereference" else none) := by
  intro ts
  induction ts with
  | nil => intro oracle; rfl
  | cons t ts ih =>
    intro oracle
    obtain ⟨tf, tm⟩ := t
    match tm with
    | [] =>
      have hstep : manualTemplates st oracle ({ file := tf, mats := [] } :: ts) =
          (([] : List Effect) ++ (manualTemplates st oracle ts).1,
            { file := tf, mats := ([] : List Mat) } :: (manualTemplates st oracle ts).2.1,
            (manualTemplates st oracle ts).2.2) := rfl
      rw [hstep, ih oracle]
      simp [hasAnyMat]
    | m :: ms =>
      have h0 : manualMats st oracle tf (m :: ms) =
          ([], oracle, tf, some "null displayBuffer dereference") := by
        simp [manualMats, hb]
      simp only [manualTemplates]
      rw [h0]
      simp [hasAnyMat]

theorem manualProjectUpdate_headless (st : DrvState) (hb : st.hasBuffer = false)
    (hp : ¬ st.parallelism > 1)
    (oracle : List (List MouseEvent)) (src : TemplateList) :
    manualProjectUpdate st oracle src =
      (if hasAnyMat src then Outcome.crash "null displayBuffer dereference" []
       else Outcome.ok src []) := by
  match src with
  | [] => simp [manualProjectUpdate, hp, hasAnyMat]
  | t :: ts =>
    simp only [manualProjectUpdate, hp, if_false, manualTemplates_headless st hb]
    by_cases h : hasAnyMat (t :: ts) <;> simp [h]

theorem surveyMats_headless (st : DrvState) (hb : st.hasBuffer = false)
    (propertyName : String) (oracle : List (List String)) (f : File) :
    ∀ ms : List Mat, surveyMats st propertyName oracle f ms =
      ([], oracle, f, if ms.isEmpty then none else some "null displayBuffer dereference") := by
  intro ms
  match ms with
  | [] => rfl
  | _ :: _ => simp [surveyMats, hb]

theorem surveyTemplates_headless (st : DrvState) (hb : st.hasBuffer = false)
    (propertyName : String) :
    ∀ (ts : TemplateList) (oracle : List (List String)),
      surveyTemplates st propertyName oracle ts =
      ([], ts, if hasAnyMat ts then some "null displayBuffer dereference" else none) := by
  intro ts
  induction ts with
  | nil => intro oracle; rfl
  | cons t ts ih =>
    intro oracle
    obtain ⟨tf, tm⟩ := t
    match tm with
    | [] =>
      have hstep : surveyTemplates st propertyName oracle ({ file := tf, mats := [] } :: ts) =
          (([] : List Effect) ++ (surveyTemplates st propertyName oracle ts).1,
            { file := tf, mats := ([] : List Mat) } ::
              (surveyTemplates st propertyName oracle ts).2.1,
            (surveyTemplates st propertyName oracle ts).2.2) := rfl
      rw [hstep, ih oracle]
      simp [hasAnyMat]
    | m :: ms =>
      have h0 : surveyMats st propertyName oracle tf (m :: ms) =
          ([], oracle, tf, some "null displayBuffer dereference") := by
        simp [surveyMats, hb]
      simp only [surveyTemplates]
      rw [h0]
      simp [hasAnyMat]

theorem surveyProjectUpdate_headless (st : DrvState) (hb : st.hasBuffer = false)
    (hp : ¬ st.parallelism > 1) (propertyName : String)
    (oracle : List (List String)) (src : TemplateList) :
    surveyProjectUpdate st propertyName oracle src =
      (if hasAnyMat src then Outcome.crash "null displayBuffer dereference" []
       else Outcome.ok src []) := by
  match src with
  | [] => simp [surveyProjectUpdate, hp, hasAnyMat]
  | t :: ts =>
    simp only [surveyProjectUpdate, hp, if_false, surveyTemplates_headless st hb]
    by_cases h : hasAnyMat (t :: ts) <;> simp [h]

theorem elicitMats_headless (st : DrvState) (hb : st.hasBuffer = false)
    (gst : DisplayGUIState) (oracle : List (List (Nat × String))) (f : File) :
    ∀ ms : List Mat, elicitMats st gst oracle f ms =
      ([], gst, oracle, f,
        if ms.isEmpty then none else some "null displayBuffer dereference") := by
  intro ms
  match ms with
  | [] => rfl
  | _ :: _ => simp [elicitMats, hb]

theorem elicitTemplates_headless (st : DrvState) (hb : st.hasBuffer = false) :
    ∀ (ts : TemplateList) (gst : DisplayGUIState) (oracle : List (List (Nat × String))),
      elicitTemplates st gst oracle ts =
      ([], gst, ts, if hasAnyMat ts then some "null displayBuffer dereference" else none) := by
  intro ts
  induction ts with
  | nil => intro gst oracle; rfl
  | cons t ts ih =>
    intro gst oracle
    obtain ⟨tf, tm⟩ := t
    match tm with
    | [] =>
      have hstep : elicitTemplates st gst oracle ({ file := tf, mats := [] } :: ts) =
          (([] : List Effect) ++ (elicitTemplates st gst oracle ts).1,
            (elicitTemplates st gst oracle ts).2.1,
            { file := tf, mats := ([] : List Mat) } ::
              (elicitTemplates st gst oracle ts).2.2.1,
            (elicitTemplates st gst oracle ts).2.2.2) := rfl
      rw [hstep, ih gst oracle]
      simp [hasAnyMat]
    | m :: ms =>
      have h0 : elicitMats st gst oracle tf (m :: ms) =
          ([], gst, oracle, tf, some "null displayBuffer dereference") := by
        simp [elicitMats, hb]
      simp only [elicitTemplates]
      rw [h0]
      simp [hasAnyMat]

theorem elicitProjectUpdate_headless (st : DrvState) (hb : st.hasBuffer = false)
    (gst : DisplayGUIState) (oracle : List (List (Nat × String))) (src : TemplateList) :
    elicitProjectUpdate st gst oracle src =
      (if hasAnyMat src then Outcome.crash "null displayBuffer dereference" []
       else Outcome.ok src [], gst) := by
  match src with
  | [] => rfl
  | t :: ts =>
    simp only [elicitProjectUpdate, elicitTemplates_headless st hb]
    by_cases h : hasAnyMat (t :: ts) <;> simp [h]

/- ---------------------------------------------------------------------
Helper lemmas about the pacing components.
--------------------------------------------------------------------- -/

theorem fpslimitStep_last_ge (tw : Nat) (s : LimitState) :
    s.last + tw ≤ (fpslimitStep tw s).last := by
  by_cases h : s.last + tw < s.clock
  · simp only [fpslimitStep, h, if_true]
    exact Nat.le_of_lt h
  · simp only [fpslimitStep, h, if_false]
    exact Nat.le_refl _

theorem fpslimitStep_last_eq_clock (tw : Nat) (s : LimitState) :
    (fpslimitStep tw s).last = (fpslimitStep tw s).clock := by
  by_cases h : s.last + tw < s.clock <;> simp [fpslimitStep, h]

theorem fpslimitStep_sleeps_shortfall (tw : Nat) (s : LimitState)
    (h : s.clock ≤ s.last + tw) :
    (fpslimitStep tw s).clock = s.last + tw ∧ (fpslimitStep tw s).last = s.last + tw := by
  have h2 : ¬ s.last + tw < s.clock := Nat.not_lt.mpr h
  simp [fpslimitStep, h2]

theorem limitRun_ge (tw : Nat) : ∀ (n : Nat) (s : LimitState),
    s.last + n * tw ≤ (limitRun tw n s).last := by
  intro n
  induction n with
  | zero => intro s; simp [limitRun]
  | succ m ih =>
    intro s
    have h1 : limitRun tw (Nat.succ m) s = limitRun tw m (fpslimitStep tw s) := rfl
    have h2 := fpslimitStep_last_ge tw s
    have h3 := ih (fpslimitStep tw s)
    rw [h1]
    have h5 : s.last + Nat.succ m * tw ≤ (fpslimitStep tw s).last + m * tw := by
      have h4 := Nat.add_le_add_right h2 (m * tw)
      rw [Nat.succ_mul]
      omega
    exact Nat.le_trans h5 h3

/- ---------------------------------------------------------------------
Claim theorems.
--------------------------------------------------------------------- -/

/-- C1, counterexample: the claim says that in headless mode every
projectUpdate returns the input batch without touching any window,
display buffer or wait primitive; but ShowTransform::projectUpdate is not
guarded by the GUI flag, and on a batch holding one sub-image it
dereferences the null display buffer (gui.cpp line 440) instead of
returning the input. -/
theorem show_headless_nonempty_not_identity :
    showProjectUpdate headlessDemoState demoBatch =
      Outcome.crash "null displayBuffer dereference" [] ∧
    showProjectUpdate headlessDemoState demoBatch ≠ Outcome.ok demoBatch [] := by
  exact ⟨rfl, by decide⟩

/-- C1 (amended): with the GUI flag disabled, init of every driver skips
all window and buffer creation (it is the identity on the state), and
projectUpdate records no window, buffer or wait effect whatsoever; a
batch with no sub-images passes through unchanged, but a batch holding
any sub-image makes projectUpdate dereference the null display buffer
(the headless guard exists only in init, not in projectUpdate). -/
theorem headless_drivers_no_gui_touch (p : Nat) (wi : Bool) (keys : List String)
    (propertyName : String) (gst : DisplayGUIState)
    (om : List (List MouseEvent)) (os : List (List String))
    (oe : List (List (Nat × String))) (src : TemplateList) :
    showInitActual (headlessState p wi keys) = headlessState p wi keys ∧
    elicitInitActual (headlessState p wi keys) gst = (headlessState p wi keys, gst) ∧
    showProjectUpdate (headlessState p wi keys) src =
      (if hasAnyMat src then Outcome.crash "null displayBuffer dereference" []
       else Outcome.ok src []) ∧
    manualProjectUpdate (headlessState 1 wi keys) om src =
      (if hasAnyMat src then Outcome.crash "null displayBuffer dereference" []
       else Outcome.ok src []) ∧
    surveyProjectUpdate (headlessState 1 wi keys) propertyName os src =
      (if hasAnyMat src then Outcome.crash "null displayBuffer dereference" []
       else Outcome.ok src []) ∧
    elicitProjectUpdate (headlessState p wi keys) gst oe src =
      (if hasAnyMat src then Outcome.crash "null displayBuffer dereference" []
       else Outcome.ok src [], gst) := by
  refine ⟨rfl, rfl, ?_, ?_, ?_, ?_⟩
  · exact showProjectUpdate_headless _ rfl rfl src
  · exact manualProjectUpdate_headless _ rfl (Nat.lt_irrefl 1) om src
  · exact surveyProjectUpdate_headless _ rfl (Nat.lt_irrefl 1) propertyName os src
  · exact elicitProjectUpdate_headless _ rfl gst oe src

/-- C2, counterexample: the claim says waitForKeyPress always returns the
accepted character normalized to lowercase; but the source stores the raw
key text (gui.cpp line 280), so a shifted "Y" is accepted and returned in
uppercase. -/
theorem prompt_returns_uppercase_variant :
    (promptRun ["Y"]).1 = some "Y" ∧ "Y" ≠ "y" ∧ "Y" ≠ "n" := by
  exact ⟨by decide, by decide, by decide⟩

/-- C2 (amended): waitForKeyPress returns only the raw text of a keypress
accepted by the case-insensitive comparison, so its lowercase form is
always "y" or "n" (the raw value itself may be an uppercase variant); any
other keypress is rejected with one advisory log message and leaves the
wait unresolved, so if no accepted key arrives the wait never returns and
every event logged an advisory. -/
theorem prompt_accepted_case_insensitive (evs : List String) :
    (∀ t, (promptRun evs).1 = some t → (qtToLower t = "y" ∨ qtToLower t = "n")) ∧
    ((promptRun evs).1 = none → (promptRun evs).2 = evs.length) := by
  have h := promptRun_sound evs
  refine ⟨fun t ht => ?_, h.2⟩
  have h2 := h.1 t ht
  simp only [promptAccepts, Bool.or_eq_true, beq_iff_eq] at h2
  exact h2

/-- Witness for C2: applying the amended theorem at the event stream with
one rejected key and the accepted raw text "N". -/
theorem prompt_accepted_case_insensitive_witness :
    (qtToLower "N" = "y" ∨ qtToLower "N" = "n") :=
  (prompt_accepted_case_insensitive ["x", "N"]).1 "N" (by decide)

/-- C3, counterexample: the claim says every wait cycle of the form
window returns exactly one entry per configured key; but showImage never
clears the accumulated fields (gui.cpp lines 336-342), so with one
configured key the second cycle returns 2 entries, not 1. -/
theorem form_second_cycle_length_doubles :
    ((guiCycle (guiCycle { keys := ["a"], fields := [] } []).1 []).2).length = 2 ∧
    List.length ["a"] = 1 ∧ (2 : Nat) ≠ 1 := by
  exact ⟨rfl, rfl, by decide⟩

/-- C3 (amended): each display call of the form window appends one fresh
field per configured key, in configured key order, and nothing ever
clears the accumulator; hence a wait cycle returns one entry per field
accumulated so far (previous fields plus one block of new keys), and the
returned list length equals the number of configured keys on the first
cycle only. -/
theorem form_fields_accumulate (st : DisplayGUIState) (edits : List (Nat × String)) :
    ((guiCycle st edits).2).length = st.fields.length + st.keys.length ∧
    (guiCycle st edits).1.fields.map GuiField.label =
      st.fields.map GuiField.label ++ st.keys ∧
    ((guiCycle { keys := st.keys, fields := [] } edits).2).length = st.keys.length := by
  refine ⟨?_, ?_, ?_⟩
  · show ((applyEdits (guiShowImage st).fields edits).map GuiField.text).length = _
    rw [List.length_map, applyEdits_length, guiShowImage_length]
  · show (applyEdits (guiShowImage st).fields edits).map GuiField.label = _
    rw [applyEdits_labels, guiShowImage_labels]
  · show ((applyEdits (guiShowImage { keys := st.keys, fields := [] }).fields edits).map
        GuiField.text).length = _
    rw [List.length_map, applyEdits_length, guiShowImage_length]
    simp

/-- C4, counterexample: the claim says a count mismatch between keys and
returned fields is non-fatal, logs a warning and leaves the metadata
unmodified, and that no out-of-bounds access occurs; but the merge loop
(gui.cpp line 595) has no count check at all: with 1 key and 2 returned
fields it writes the key anyway, and with 2 keys and 1 returned field it
reads past the end of the field list. -/
theorem elicit_merge_writes_on_mismatch :
    List.length ["a"] ≠ List.length ["x", "y"] ∧
    elicitMerge ["a"] ["x", "y"] file0 =
      Except.ok (File.set file0 "a" (FileValue.str "x")) ∧
    elicitMerge ["a"] ["x", "y"] file0 ≠ Except.ok file0 ∧
    elicitMerge ["a", "b"] ["x"] file0 = Except.error "index out of range" := by
  refine ⟨by decide, rfl, ?_, rfl⟩
  intro h
  have h2 := Except.ok.inj h
  exact absurd h2 (by decide)

/-- C4 (amended): the Elicit merge writes keys[j] := fields[j] for every
j below the key count, unconditionally and with no warning: when at least
as many fields as keys are returned it succeeds, assigning each key its
positional field (excess fields are silently ignored); when fewer fields
than keys are returned the access is out of bounds. -/
theorem elicit_merge_positional (keys vals : List String) (f : File) :
    (∀ (hle : keys.length ≤ vals.length),
      elicitMerge keys vals f =
        Except.ok (setAll f (List.zipWith (fun k v => (k, FileValue.str v)) keys vals)) ∧
      (keys.Nodup → ∀ (i : Nat) (hi : i < keys.length),
        (setAll f (List.zipWith (fun k v => (k, FileValue.str v)) keys vals)).get
            (keys.get ⟨i, hi⟩) =
          some (FileValue.str (vals.get ⟨i, Nat.lt_of_lt_of_le hi hle⟩)))) ∧
    (vals.length < keys.length →
      elicitMerge keys vals f = Except.error "index out of range") := by
  constructor
  · intro hle
    refine ⟨elicitMergeGo_ok keys vals f hle, fun hnd i hi => ?_⟩
    have hlen : (List.zipWith (fun k v => (k, FileValue.str v)) keys vals).length =
        keys.length := by
      rw [List.length_zipWith]
      exact Nat.min_eq_left hle
    have hps : i < (List.zipWith (fun k v => (k, FileValue.str v)) keys vals).length :=
      hlen.symm ▸ hi
    have hnd2 : ((List.zipWith (fun k v => (k, FileValue.str v)) keys vals).map
        Prod.fst).Nodup := by
      rw [map_fst_zipWith_pair FileValue.str keys vals hle]
      exact hnd
    have hS := get_setAll_nodup (List.zipWith (fun k v => (k, FileValue.str v)) keys vals)
      f hnd2 i hps
    rw [get_zipWith_pair FileValue.str keys vals i hps hi
      (Nat.lt_of_lt_of_le hi hle)] at hS
    exact hS
  · intro h
    exact elicitMergeGo_oob keys vals f h

/-- Witness for C4: one key, two returned fields; the merge succeeds and
assigns the key its positional field. -/
theorem elicit_merge_positional_witness :
    (setAll file0 (List.zipWith (fun k v => (k, FileValue.str v)) ["a"] ["x", "y"])).get "a" =
      some (FileValue.str "x") := by
  have h := ((elicit_merge_positional ["a"] ["x", "y"] file0).1 (by decide)).2
    (by decide) 0 (by decide)
  simpa using h

/-- C5: for every batch delivered to Manual or Survey while the
configured parallelism exceeds 1, projectUpdate aborts with the
descriptive fatal message before any frame is processed: the outcome is
the fatal abort, carrying no produced frames and no recorded effects, for
every source batch and every input oracle. -/
theorem parallel_gui_transforms_fatal (stM stS : DrvState) (propertyName : String)
    (om : List (List MouseEvent)) (os : List (List String))
    (srcM srcS : TemplateList)
    (hM : stM.parallelism > 1) (hS : stS.parallelism > 1) :
    manualProjectUpdate stM om srcM =
      Outcome.fatal "ManualTransform cannot execute in parallel." ∧
    surveyProjectUpdate stS propertyName os srcS =
      Outcome.fatal "SurveyTransform cannot execute in parallel." := by
  constructor
  · simp [manualProjectUpdate, hM]
  · simp [surveyProjectUpdate, hS]

/-- Witness for C5: parallelism 2, a nonempty batch: both drivers abort
fatally. -/
theorem parallel_gui_transforms_fatal_witness :
    manualProjectUpdate parDemoState [] demoBatch =
      Outcome.fatal "ManualTransform cannot execute in parallel." ∧
    surveyProjectUpdate parDemoState "answer" [] demoBatch =
      Outcome.fatal "SurveyTransform cannot execute in parallel." :=
  parallel_gui_transforms_fatal parDemoState parDemoState "answer" [] [] demoBatch demoBatch
    (by decide) (by decide)

/-- C6: the Manual merge, per frame under the wait flag: with no
configured keys the collected points are appended to the frame as an
unlabeled point set and the metadata record is untouched; with keys whose
count equals the point count, key i maps to point i for every i (and no
warning is logged); with keys and a count mismatch, a warning is logged
and the frame is left entirely unmodified. -/
theorem manual_merge_cases (keys : List String) (pts : List QPointF) (f : File) :
    (keys = [] →
      manualMerge keys pts f = (f.appendPoints pts, false) ∧
      (f.appendPoints pts).metadata = f.metadata ∧
      (f.appendPoints pts).points = f.points ++ pts) ∧
    (keys ≠ [] → ∀ (hlen : keys.length = pts.length), keys.Nodup →
      (manualMerge keys pts f).2 = false ∧
      ∀ (i : Nat) (hi : i < keys.length),
        ((manualMerge keys pts f).1).get (keys.get ⟨i, hi⟩) =
          some (FileValue.pt (pts.get ⟨i, hlen ▸ hi⟩))) ∧
    (keys ≠ [] → keys.length ≠ pts.length → manualMerge keys pts f = (f, true)) := by
  refine ⟨fun hk => ?_, fun hne hlen hnd => ?_, fun hne hll => ?_⟩
  · subst hk
    exact ⟨rfl, rfl, rfl⟩
  · have hni : keys.isEmpty = false := by
      cases keys with
      | nil => exact absurd rfl hne
      | cons a l => rfl
    have hmm : manualMerge keys pts f =
        (setAll f (List.zipWith (fun k p => (k, FileValue.pt p)) keys pts), false) := by
      simp [manualMerge, hni, hlen]
    refine ⟨by rw [hmm], fun i hi => ?_⟩
    have hle : keys.length ≤ pts.length := Nat.le_of_eq hlen
    have hzlen : (List.zipWith (fun k p => (k, FileValue.pt p)) keys pts).length =
        keys.length := by
      rw [List.length_zipWith]
      exact Nat.min_eq_left hle
    have hps : i < (List.zipWith (fun k p => (k, FileValue.pt p)) keys pts).length :=
      hzlen.symm ▸ hi
    have hnd2 : ((List.zipWith (fun k p => (k, FileValue.pt p)) keys pts).map
        Prod.fst).Nodup := by
      rw [map_fst_zipWith_pair FileValue.pt keys pts hle]
      exact hnd
    have hS := get_setAll_nodup (List.zipWith (fun k p => (k, FileValue.pt p)) keys pts)
      f hnd2 i hps
    rw [get_zipWith_pair FileValue.pt keys pts i hps hi (hlen ▸ hi)] at hS
    rw [hmm]
    exact hS
  · have hni : keys.isEmpty = false := by
      cases keys with
      | nil => exact absurd rfl hne
      | cons a l => rfl
    simp [manualMerge, hni, hll]

/-- Witness for C6: the spec scenario, two keys and two clicked points;
each key receives its positional point. -/
theorem manual_merge_cases_witness :
    ((manualMerge ["leftEye", "rightEye"]
        [{ x := 1, y := 2 }, { x := 3, y := 4 }] file0).1).get "leftEye" =
      some (FileValue.pt { x := 1, y := 2 }) ∧
    ((manualMerge ["leftEye", "rightEye"]
        [{ x := 1, y := 2 }, { x := 3, y := 4 }] file0).1).get "rightEye" =
      some (FileValue.pt { x := 3, y := 4 }) := by
  have h := ((manual_merge_cases ["leftEye", "rightEye"]
      [{ x := 1, y := 2 }, { x := 3, y := 4 }] file0).2.1
      (by decide) (by decide) (by decide)).2
  exact ⟨by simpa using h 0 (by decide), by simpa using h 1 (by decide)⟩

set_option maxRecDepth 4096 in
/-- C7, counterexample: the claim says the average inter-tick spacing is
at least 1000/R milliseconds, so that throughput never exceeds R ticks
per second; but target_wait truncates 1000.0/30 to 33 (gui.cpp line 746),
so with instantaneous processing 30 consecutive ticks complete after only
990 ms: the total elapsed time times R is 29700, strictly below N times
1000 = 30000, i.e. the average spacing is below 1000/R and the throughput
exceeds R. -/
theorem fpslimit_throughput_exceeds_target :
    limitTargetWait 30 = 33 ∧
    limitRun (limitTargetWait 30) 30 limitInitState = { clock := 990, last := 990 } ∧
    (limitRun (limitTargetWait 30) 30 limitInitState).last * 30 < 30 * 1000 := by
  exact ⟨rfl, by decide, by decide⟩

/-- C7 (amended): the rate limiter computes the interval as the floor of
1000/R milliseconds; on each invocation, when the elapsed time since the
last tick is within the interval it sleeps exactly the shortfall and
records the post-sleep timestamp, so each tick advances the last-tick
timestamp by at least the floored interval and over N consecutive ticks
the total advance is at least N times that interval (throughput can
exceed R slightly when R does not divide 1000). -/
theorem fpslimit_spacing_lower_bound (tw n : Nat) (s : LimitState) :
    s.last + tw ≤ (fpslimitStep tw s).last ∧
    (fpslimitStep tw s).last = (fpslimitStep tw s).clock ∧
    (s.clock ≤ s.last + tw → (fpslimitStep tw s).clock = s.last + tw) ∧
    s.last + n * tw ≤ (limitRun tw n s).last :=
  ⟨fpslimitStep_last_ge tw s, fpslimitStep_last_eq_clock tw s,
   fun h => (fpslimitStep_sleeps_shortfall tw s h).1, limitRun_ge tw n s⟩

/-- Witness for C7: from the initial state with the rate-30 interval, one
step sleeps to exactly the 33 ms target, and five consecutive ticks
advance the last-tick timestamp to at least 165 ms. -/
theorem fpslimit_spacing_lower_bound_witness :
    (fpslimitStep 33 limitInitState).clock = 0 + 33 ∧
    0 + 5 * 33 ≤ (limitRun 33 5 limitInitState).last := by
  have h := fpslimit_spacing_lower_bound 33 5 limitInitState
  exact ⟨h.2.2.1 (by decide), h.2.2.2⟩

/-- C8, counterexample: the claim says the frame counter increments by
the number of sub-items processed per invocation and that a value is
stamped for every elapsed time of at least 1000 ms; but framesSeen
increments by exactly one per invocation (gui.cpp line 787) even for a
two-frame batch, and at exactly 1000 ms elapsed nothing is stamped (the
test is strict, gui.cpp line 793). -/
theorem fpscalc_counter_ignores_batch_size :
    twoFrameBatch.length = 2 ∧
    (fpscalcProjectUpdate { initialized := true, framesSeen := 0 }
        500 twoFrameBatch).1.framesSeen = 1 ∧
    (1 : Nat) ≠ 2 ∧
    (fpscalcProjectUpdate { initialized := true, framesSeen := 29 }
        1000 demoBatch).2 = demoBatch := by
  exact ⟨rfl, rfl, by decide, rfl⟩

/-- C8 (amended): each invocation increments the frame counter by exactly
one (whatever the batch holds); no value is stamped at or before 1000 ms
elapsed, nor onto an empty batch; once strictly more than 1000 ms have
elapsed the first frame of a nonempty batch receives, under the fixed key
"AvgFPS", the value 1000 times the updated counter divided by the elapsed
time with integer semantics, and the remaining frames pass unchanged. -/
theorem fpscalc_increment_and_stamp (st : CalcState) (elapsed : Nat) (src : TemplateList) :
    (fpscalcProjectUpdate st elapsed src).1.framesSeen = st.framesSeen + 1 ∧
    (fpscalcProjectUpdate st elapsed src).1.initialized = true ∧
    (elapsed ≤ 1000 → (fpscalcProjectUpdate st elapsed src).2 = src) ∧
    (src = [] → (fpscalcProjectUpdate st elapsed src).2 = src) ∧
    (1000 < elapsed → ∀ t ts, src = t :: ts →
      (fpscalcProjectUpdate st elapsed src).2 =
        { t with file := t.file.set "AvgFPS" (FileValue.fps (1000 * (st.framesSeen + 1) / elapsed)) } :: ts ∧
      (t.file.set "AvgFPS" (FileValue.fps (1000 * (st.framesSeen + 1) / elapsed))).get "AvgFPS" =
        some (FileValue.fps (1000 * (st.framesSeen + 1) / elapsed))) := by
  refine ⟨?_, ?_, fun hle => ?_, fun hsrc => ?_, fun hgt t ts hsrc => ?_⟩
  · by_cases h0 : src = [] <;> by_cases h1 : 1000 < elapsed <;>
      simp [fpscalcProjectUpdate, h0, h1]
  · by_cases h0 : src = [] <;> by_cases h1 : 1000 < elapsed <;>
      simp [fpscalcProjectUpdate, h0, h1]
  · have h1 : ¬ 1000 < elapsed := Nat.not_lt.mpr hle
    by_cases h0 : src = [] <;> simp [fpscalcProjectUpdate, h0, h1]
  · simp [fpscalcProjectUpdate, hsrc]
  · subst hsrc
    refine ⟨?_, File.get_set_self t.file "AvgFPS" _⟩
    simp [fpscalcProjectUpdate, hgt, stampFirst]

/-- Witness for C8: 29 frames seen, a one-frame batch at 1500 ms elapsed:
the first frame is stamped with 1000 * 30 / 1500 = 20. -/
theorem fpscalc_increment_and_stamp_witness :
    (fpscalcProjectUpdate { initialized := true, framesSeen := 29 } 1500 demoBatch).2 =
      [{ file := File.set file0 "AvgFPS" (FileValue.fps 20), mats := [0] }] := by
  have h := ((fpscalc_increment_and_stamp { initialized := true, framesSeen := 29 }
      1500 demoBatch).2.2.2.2 (by decide) { file := file0, mats := [0] } [] rfl).1
  simpa using h

/-- C9: over one wait cycle of the point-collector window, the returned
list length plus the number of applied removals equals the number of
primary presses (so the length is the primary count minus the applied
secondary count and, being a natural number, never negative); a secondary
press on an empty list is a no-op; waitForKey clears the accumulator
before processing, so its result is independent of whatever points were
left from earlier cycles; and the instrumented run agrees with the plain
event-filter fold. -/
theorem point_cycle_counts (evs : List MouseEvent) (prev pts : List QPointF) :
    (pointCycle evs).length + (cycleRun [] 0 evs).2 = countLeft evs ∧
    pointStep [] MouseEvent.right = [] ∧
    pmWaitForKey prev evs = pointCycle evs ∧
    (cycleRun pts 0 evs).1 = evs.foldl pointStep pts := by
  refine ⟨?_, rfl, rfl, cycleRun_fst evs pts 0⟩
  have h1 := cycleRun_len evs [] 0
  have h2 := cycleRun_fst evs [] 0
  rw [h2] at h1
  simpa [pointCycle] using h1

/-- C10: every invocation of the rate calculator increments the frame
counter by exactly one, whatever the batch contains, and an empty batch
returns unchanged with nothing stamped (the empty-batch return precedes
the stamping step). -/
theorem fpscalc_counter_per_invocation (st : CalcState) (elapsed : Nat)
    (src : TemplateList) :
    (fpscalcProjectUpdate st elapsed src).1.framesSeen = st.framesSeen + 1 ∧
    (src = [] → (fpscalcProjectUpdate st elapsed src).2 = src) := by
  refine ⟨?_, fun hsrc => ?_⟩
  · by_cases h0 : src = [] <;> by_cases h1 : 1000 < elapsed <;>
      simp [fpscalcProjectUpdate, h0, h1]
  · simp [fpscalcProjectUpdate, hsrc]

/-- Witness for C10: an empty batch at 5000 ms elapsed still increments
the counter and passes through unchanged with no stamped value. -/
theorem fpscalc_counter_per_invocation_witness :
    (fpscalcProjectUpdate { initialized := true, framesSeen := 7 }
        5000 ([] : TemplateList)).1.framesSeen = 7 + 1 ∧
    (fpscalcProjectUpdate { initialized := true, framesSeen := 7 }
        5000 ([] : TemplateList)).2 = [] :=
  ⟨(fpscalc_counter_per_invocation { initialized := true, framesSeen := 7 } 5000 []).1,
   (fpscalc_counter_per_invocation { initialized := true, framesSeen := 7 } 5000 []).2 rfl⟩

end OpenBRGui
